import Mathlib

/-!
Verification of the chebyshev testing harness.

The development shallowly embeds the two revisions of the library found in
the sources:

* the older, module-global revision (`precision.h`): the Simpson-rule
  precision estimator `prec::estimate`, its multi-interval overload and the
  module result table;
* the newer, context-object revision (`prec.h`, `benchmark.h`): the
  `prec_context` and `benchmark_context` classes with picked-test filtering,
  threaded registration, Welford benchmark aggregation, result tables and
  one-shot termination.

Machine floating point is modelled by exact rationals together with an
explicit encoding of the non-finite IEEE values (`Fv` below): the programs
under scrutiny only produce non-finite values through division and square
roots, which the model reproduces (x/0 is ±infinity for x ≠ 0 and NaN for
0/0; comparisons against NaN are false).  Threads are modelled as a list of
pending computations whose completion order is an arbitrary permutation of
the registration order; a mutex-guarded insertion becomes an atomic append.
-/

/-- An IEEE-style value: a finite rational or one of the non-finite values.
`long double` and `double` quantities of the source are modelled by this
type whenever non-finite values can arise. -/
inductive Fv where
  | fin : ℚ → Fv
  | pinf : Fv
  | ninf : Fv
  | nan : Fv
deriving DecidableEq

/-- IEEE division of two finite values: finite quotient when the divisor is
nonzero, NaN for 0/0 and a signed infinity otherwise. -/
def fdiv (x y : ℚ) : Fv :=
  if y ≠ 0 then Fv.fin (x / y)
  else if x = 0 then Fv.nan
  else if 0 < x then Fv.pinf
  else Fv.ninf

/-- IEEE subtraction lifted to `Fv` (NaN propagates, inf - inf is NaN). -/
def fsub : Fv → Fv → Fv
  | Fv.fin a, Fv.fin b => Fv.fin (a - b)
  | Fv.fin _, Fv.pinf => Fv.ninf
  | Fv.fin _, Fv.ninf => Fv.pinf
  | Fv.pinf, Fv.fin _ => Fv.pinf
  | Fv.ninf, Fv.fin _ => Fv.ninf
  | Fv.pinf, Fv.ninf => Fv.pinf
  | Fv.ninf, Fv.pinf => Fv.ninf
  | _, _ => Fv.nan

/-- IEEE absolute value lifted to `Fv`. -/
def fabs : Fv → Fv
  | Fv.fin a => Fv.fin |a|
  | Fv.pinf => Fv.pinf
  | Fv.ninf => Fv.pinf
  | Fv.nan => Fv.nan

/-- IEEE strict greater-than on `Fv`: any comparison with NaN is false. -/
def fgt : Fv → Fv → Bool
  | Fv.fin a, Fv.fin b => decide (b < a)
  | Fv.fin _, Fv.pinf => false
  | Fv.fin _, Fv.ninf => true
  | Fv.pinf, Fv.fin _ => true
  | Fv.ninf, Fv.fin _ => false
  | Fv.pinf, Fv.ninf => true
  | _, _ => false

/-- A real-valued IEEE-style result, used for quantities obtained through a
square root. -/
inductive Rv where
  | fin : ℝ → Rv
  | pinf : Rv
  | nan : Rv

/-- IEEE square root of an `Fv` value: NaN on negative or NaN input. -/
noncomputable def fsqrt : Fv → Rv
  | Fv.fin q => if q < 0 then Rv.nan else Rv.fin (Real.sqrt q)
  | Fv.pinf => Rv.pinf
  | Fv.ninf => Rv.nan
  | Fv.nan => Rv.nan

/-- `chebyshev::interval` — a pair of real bounds (`interval.h`). -/
structure interval where
  a : ℚ
  b : ℚ
deriving DecidableEq

/-- `chebyshev::prec::prec_estimates` (`precision.h`): the record of one
error estimation.  `mean_err`, `rel_err` come from divisions and `rms_err`
from a square root, so they carry the IEEE-value types. -/
structure PrecEstimates where
  f_name : String
  k : interval
  times_evaluated : ℕ
  mean_err : Fv
  rms_sq : Fv
  max_err : ℚ
  abs_err : ℚ
  rel_err : Fv
  failed : Bool
  quiet : Bool
deriving DecidableEq

/-- The RMS error of a `PrecEstimates` record: the source stores
`sqrt((sum_sqr * dx / 3) / measure)`; the model keeps the radicand
(`rms_sq`) in the record and takes the square root here. -/
noncomputable def PrecEstimates.rms_err (p : PrecEstimates) : Rv :=
  fsqrt p.rms_sq

/-- Module-global state of the older revision (`precision.h`): test
counters and the table of estimates. -/
structure PrecModuleState where
  total_tests : ℕ
  failed_tests : ℕ
  module_estimates : List PrecEstimates
deriving DecidableEq

/-- Pointwise error `|f_approx(x) - f_exp(x)|` evaluated by the estimator. -/
def ediff (f_approx f_exp : ℚ → ℚ) (x : ℚ) : ℚ :=
  |f_approx x - f_exp x|

/-- Simpson interior coefficient: 2 for even sample indices, 4 for odd. -/
def scoeff (i : ℕ) : ℚ :=
  if i % 2 = 0 then 2 else 4

/-- Accumulator of the estimator loop of `prec::estimate` (`precision.h`):
running weighted error sum, weighted squared error sum, weighted reference
sum and running maximum. -/
structure EstAcc where
  sum : ℚ
  sum_sqr : ℚ
  sum_abs : ℚ
  max : ℚ
deriving DecidableEq

/-- One iteration of the interior loop of `prec::estimate`: sample at
`a + i*dx`, update the running maximum, and accumulate with the Simpson
coefficient.  The interior reference term is accumulated WITHOUT absolute
value, exactly as in the source (`sum_abs += coeff * f_exp(x)`). -/
def estStep (f_approx f_exp : ℚ → ℚ) (a dx : ℚ) (acc : EstAcc) (i : ℕ) : EstAcc :=
  let x := a + i * dx
  let diff := ediff f_approx f_exp x
  { sum := acc.sum + scoeff i * diff
    sum_sqr := acc.sum_sqr + scoeff i * diff * diff
    sum_abs := acc.sum_abs + scoeff i * f_exp x
    max := if acc.max < diff then diff else acc.max }

/-- `chebyshev::prec::estimate` (`precision.h`, single interval): composite
Simpson quadrature of the pointwise error over `[k.a, k.b]` with `n`
sub-intervals, returning the estimate record and the updated module state.
The iteration count is used exactly as supplied (the model, like the
source, assumes `n ≥ 1`; the final sample is taken at `k.b` itself). -/
def estimateP (name : String) (f_approx f_exp : ℚ → ℚ) (k : interval)
    (quiet : Bool) (tolerance : ℚ) (n : ℕ) (s : PrecModuleState) :
    PrecEstimates × PrecModuleState :=
  let measure : ℚ := |k.b - k.a|
  let dx : ℚ := measure / n
  let diffa : ℚ := ediff f_approx f_exp k.a
  let init : EstAcc :=
    { sum := diffa, sum_sqr := diffa * diffa, sum_abs := |f_exp k.a|, max := diffa }
  let acc := (List.range' 1 (n - 1) 1).foldl (estStep f_approx f_exp k.a dx) init
  let diffb : ℚ := ediff f_approx f_exp k.b
  let sum := acc.sum + diffb
  let sum_sqr := acc.sum_sqr + diffb * diffb
  let sum_abs := acc.sum_abs + |f_exp k.b|
  let maxv : ℚ := if acc.max < diffb then diffb else acc.max
  let failed : Bool := decide (tolerance ≤ maxv)
  let result : PrecEstimates :=
    { f_name := name
      quiet := quiet
      k := k
      times_evaluated := n
      abs_err := sum
      max_err := maxv
      mean_err := fdiv (sum * dx / 3) measure
      rms_sq := fdiv (sum_sqr * dx / 3) measure
      rel_err := fdiv (sum * dx / 3) (sum_abs * dx / 3)
      failed := failed }
  (result,
    { total_tests := s.total_tests + 1
      failed_tests := s.failed_tests + (if failed then 1 else 0)
      module_estimates := s.module_estimates ++ [result] })

/-- A zero-initialised `prec_estimates` record, the value a
`std::vector<prec_estimates>::resize` produces (`prec_estimates` has a
defaulted constructor, so resize value-initialises: numeric members zero,
empty name, default interval `[0, 1]`). -/
def defaultPrecEstimates : PrecEstimates :=
  { f_name := ""
    k := { a := 0, b := 1 }
    times_evaluated := 0
    mean_err := Fv.fin 0
    rms_sq := Fv.fin 0
    max_err := 0
    abs_err := 0
    rel_err := Fv.fin 0
    failed := false
    quiet := false }

/-- `chebyshev::prec::estimate` (`precision.h`, vector-of-intervals
overload).  The source first `resize`s the result vector to the number of
intervals and then `push_back`s each single-interval estimate onto it; the
inner call passes only name, functions, interval, quiet and tolerance, so
the iteration count falls back to the default `CHEBYSHEV_INTEGRAL_ITER`
(1000). -/
def estimateMultiP (name : String) (f_approx f_exp : ℚ → ℚ)
    (requested_intervals : List interval) (quiet : Bool) (tolerance : ℚ)
    (s : PrecModuleState) : List PrecEstimates × PrecModuleState :=
  let init : List PrecEstimates :=
    List.replicate requested_intervals.length defaultPrecEstimates
  requested_intervals.foldl
    (fun acc i =>
      let r := estimateP name f_approx f_exp i quiet tolerance 1000 acc.2
      (acc.1 ++ [r.1], r.2))
    (init, s)

/-- Insertion into a `std::map<std::string, bool>` keyed set, modelled as a
duplicate-free list of keys. -/
def mapInsert (m : List String) (k : String) : List String :=
  if k ∈ m then m else m ++ [k]

/-- The picked-test set seeded by `setup` (`prec.h` / `benchmark.h`): the
source loops `for i = 1 .. argc-1` inserting `argv[i]`, so the first
command-line token is never picked. -/
def pickedOf (args : List String) : List String :=
  (args.drop 1).foldl mapInsert []

/-- `chebyshev::prec::estimate_result` (`prec_structures.h`), with the
fields as assigned in `prec_context::estimate`.  All error fields are
filled by the injected estimator. -/
structure EstimateResult where
  name : String := "unknown"
  domain : List interval := []
  tolerance : Fv := Fv.fin 0
  max_err : Fv := Fv.nan
  mean_err : Fv := Fv.nan
  rms_err : Fv := Fv.nan
  rel_err : Fv := Fv.nan
  abs_err : Fv := Fv.nan
  failed : Bool := false
  quiet : Bool := false
  iterations : ℕ := 0
deriving DecidableEq

/-- `chebyshev::prec::equation_result` (`prec_structures.h`). -/
structure EquationResult where
  name : String := "unknown"
  evaluated : Fv := Fv.nan
  expected : Fv := Fv.nan
  difference : Fv := Fv.nan
  tolerance : Fv := Fv.fin 0
  failed : Bool := true
  quiet : Bool := false
deriving DecidableEq

/-- `chebyshev::prec::estimate_options` (`prec_structures.h`).  In the
source the estimator receives the whole options record; here it receives
the record's data fields (domain, tolerance, iterations) so that the
structure is not recursive. -/
structure EstimateOptions where
  domain : List interval := []
  tolerance : Fv := Fv.nan
  iterations : ℕ := 0
  fail : EstimateResult → Bool
  estimator : (ℚ → ℚ) → (ℚ → ℚ) → List interval → Fv → ℕ → EstimateResult
  quiet : Bool := false

/-- `chebyshev::prec::prec_settings` (`prec.h`).  The default tolerance is
`CHEBYSHEV_PREC_TOLERANCE = 1E-08`, the default iteration count
`CHEBYSHEV_PREC_ITER = 1000`. -/
structure PrecSettings where
  moduleName : String := "unknown"
  defaultIterations : ℕ := 1000
  defaultTolerance : Fv := Fv.fin (1 / 100000000)
  pickedTests : List String := []
deriving DecidableEq

/-- The total/failed counts printed by a context's `terminate`. -/
structure Summary where
  total : ℕ
  failed : ℕ
deriving DecidableEq

/-- `chebyshev::prec::prec_context` (`prec.h`).  Result tables map names to
lists of results, modelled as append-only association lists; pending
estimate threads are the list of computations already registered but not
yet joined; `log` records the summaries printed by `terminate`. -/
structure PrecContext where
  settings : PrecSettings
  estimateResults : List (String × EstimateResult) := []
  estimateThreads : List (String × EstimateResult) := []
  equationResults : List (String × EquationResult) := []
  wasTerminated : Bool := false
  log : List Summary := []
deriving DecidableEq

/-- `prec_context::setup` as used by the constructor: fresh settings, the
picked set seeded from the argument tokens after the first, and the
terminated flag cleared. -/
def PrecContext.setup (moduleName : String) (args : List String) : PrecContext :=
  { settings := { moduleName := moduleName, pickedTests := pickedOf args }
    estimateResults := []
    estimateThreads := []
    equationResults := []
    wasTerminated := false
    log := [] }

/-- The body of the worker thread spawned by `prec_context::estimate`: run
the injected estimator, fill in the identifying fields, then apply the
fail function to the filled record. -/
def estimateTask (name : String) (funcApprox funcExpected : ℚ → ℚ)
    (opt : EstimateOptions) : EstimateResult :=
  let res0 := opt.estimator funcApprox funcExpected opt.domain opt.tolerance opt.iterations
  let res1 := { res0 with
    name := name
    domain := opt.domain
    tolerance := opt.tolerance
    quiet := opt.quiet
    iterations := opt.iterations }
  { res1 with failed := opt.fail res1 }

/-- `prec_context::estimate` (`prec.h`): skip the test case when any tests
have been picked and this one was not; otherwise register a worker thread
whose result will be inserted under the mutex. -/
def PrecContext.estimate (ctx : PrecContext) (name : String)
    (funcApprox funcExpected : ℚ → ℚ) (opt : EstimateOptions) : PrecContext :=
  if ctx.settings.pickedTests ≠ [] ∧ name ∉ ctx.settings.pickedTests then ctx
  else
    { ctx with estimateThreads :=
        ctx.estimateThreads ++ [(name, estimateTask name funcApprox funcExpected opt)] }

/-- `prec_context::equals` (`prec.h`, `long double` overload): a NaN
tolerance falls back to the default, a picked-set miss skips the case, and
otherwise the absolute difference is compared against the tolerance and
the result is registered synchronously. -/
def PrecContext.equals (ctx : PrecContext) (name : String)
    (evaluated expected : Fv) (tolerance : Fv) (quiet : Bool) : PrecContext :=
  let tol := if tolerance = Fv.nan then ctx.settings.defaultTolerance else tolerance
  if ctx.settings.pickedTests ≠ [] ∧ name ∉ ctx.settings.pickedTests then ctx
  else
    let diff := fabs (fsub expected evaluated)
    let res : EquationResult :=
      { name := name
        difference := diff
        tolerance := tol
        quiet := quiet
        evaluated := evaluated
        expected := expected
        failed := fgt diff tol }
    { ctx with equationResults := ctx.equationResults ++ [(name, res)] }

/-- The total/failed counts `prec_context::terminate` computes by scanning
both result tables once. -/
def precSummary (ctx : PrecContext) : Summary :=
  { total := ctx.estimateResults.length + ctx.equationResults.length
    failed := (ctx.estimateResults.filter (fun p => p.2.failed)).length
      + (ctx.equationResults.filter (fun p => p.2.failed)).length }

/-- `prec_context::wait_results`: join all worker threads.  The threads
complete in an arbitrary order (`order`), each insertion appending to the
table under the mutex; the pending list is then cleared. -/
def PrecContext.wait_results (ctx : PrecContext)
    (order : List (String × EstimateResult)) : PrecContext :=
  { ctx with
    estimateResults := ctx.estimateResults ++ order
    estimateThreads := [] }

/-- `prec_context::terminate` with `exit = false`: join the threads,
recompute the counts, print (append to `log`) the summary, and set the
terminated flag.  The source performs no early return when the context was
already terminated. -/
def PrecContext.terminate (ctx : PrecContext)
    (order : List (String × EstimateResult)) : PrecContext :=
  let c := ctx.wait_results order
  { c with log := c.log ++ [precSummary c], wasTerminated := true }

/-- The `prec_context` destructor: terminate only when not already
terminated (threads complete in registration order here). -/
def PrecContext.destroy (ctx : PrecContext) : PrecContext :=
  if ctx.wasTerminated then ctx else ctx.terminate ctx.estimateThreads

/-- `chebyshev::benchmark::benchmark_result`
(`benchmark_structures.h`).  The source stores the sample standard
deviation itself; the model stores the radicand (`stdev_sq`) and exposes
the square root through `BenchmarkResult.stdevRuntime`. -/
structure BenchmarkResult where
  name : String := "unknown"
  runs : ℕ := 0
  iterations : ℕ := 0
  totalRuntime : Fv := Fv.nan
  averageRuntime : Fv := Fv.nan
  stdev_sq : Fv := Fv.nan
  runsPerSecond : Fv := Fv.nan
  failed : Bool := true
  quiet : Bool := false
deriving DecidableEq

/-- The stored `stdevRuntime` of a benchmark result (the square root of the
recorded radicand; NaN when the radicand was never assigned). -/
noncomputable def BenchmarkResult.stdevRuntime (r : BenchmarkResult) : Rv :=
  fsqrt r.stdev_sq

/-- The Welford recurrence of `benchmark_context::benchmark`
(`benchmark.h`): after run `k` (0-based), the pair of the running average
and the running sum of squared deviations.  Run `0` initialises the
average; run `i + 1` performs the source's update with divisor `i + 2`
(the source's `i + 1` for its 1-based loop counter). -/
def welford (x : ℕ → ℚ) : ℕ → ℚ × ℚ
  | 0 => (x 0, 0)
  | i + 1 =>
    let p := welford x i
    let currentAverage := x (i + 1)
    let avg := p.1 + (currentAverage - p.1) / ((i : ℚ) + 2)
    (avg, p.2 + (currentAverage - p.1) * (currentAverage - avg))

/-- The body of the worker thread spawned by `benchmark_context::benchmark`
for a function that does not throw: `ts i` is the total measured runtime of
run `i` over the input vector, `m` the input vector's length.  The per-run
average is `ts i / m`; the Welford recurrence aggregates mean and variance;
the standard deviation is only assigned when `runs > 1` (otherwise it stays
at its NaN default). -/
def benchCompute (name : String) (runs m : ℕ) (ts : ℕ → ℚ)
    (quiet : Bool) : BenchmarkResult :=
  let x : ℕ → ℚ := fun i => ts i / (m : ℚ)
  let w := welford x (runs - 1)
  { name := name
    runs := runs
    iterations := m
    totalRuntime := Fv.fin (∑ i in Finset.range runs, ts i)
    averageRuntime := Fv.fin w.1
    runsPerSecond := fdiv 1000 w.1
    stdev_sq := if 1 < runs then Fv.fin (w.2 / ((runs : ℚ) - 1)) else Fv.nan
    failed := false
    quiet := quiet }

/-- `chebyshev::benchmark::benchmark_settings` (`benchmark.h`), defaults
`CHEBYSHEV_BENCHMARK_ITER = 1000` and `CHEBYSHEV_BENCHMARK_RUNS = 10`. -/
structure BenchmarkSettings where
  moduleName : String := "unknown"
  defaultIterations : ℕ := 1000
  defaultRuns : ℕ := 10
  pickedBenchmarks : List String := []
deriving DecidableEq

/-- `chebyshev::benchmark::benchmark_context` (`benchmark.h`). -/
structure BenchmarkContext where
  settings : BenchmarkSettings
  benchmarkResults : List (String × BenchmarkResult) := []
  benchmarkThreads : List (String × BenchmarkResult) := []
  wasTerminated : Bool := false
  log : List Summary := []
deriving DecidableEq

/-- `benchmark_context::setup` as used by the constructor: fresh settings,
picked set from the tokens after the first, cleared results. -/
def BenchmarkContext.setup (moduleName : String) (args : List String) :
    BenchmarkContext :=
  { settings := { moduleName := moduleName, pickedBenchmarks := pickedOf args }
    benchmarkResults := []
    benchmarkThreads := []
    wasTerminated := false
    log := [] }

/-- `benchmark_context::benchmark` (`benchmark.h`, input-vector overload):
a zero run count falls back to the default, then a worker thread is
registered unconditionally — the source consults `pickedBenchmarks` in no
`benchmark` overload. -/
def BenchmarkContext.benchmark (ctx : BenchmarkContext) (name : String)
    (runs m : ℕ) (ts : ℕ → ℚ) (quiet : Bool) : BenchmarkContext :=
  let runs2 := if runs = 0 then ctx.settings.defaultRuns else runs
  { ctx with benchmarkThreads :=
      ctx.benchmarkThreads ++ [(name, benchCompute name runs2 m ts quiet)] }

/-- The total/failed counts `benchmark_context::terminate` computes. -/
def benchSummary (ctx : BenchmarkContext) : Summary :=
  { total := ctx.benchmarkResults.length
    failed := (ctx.benchmarkResults.filter (fun p => p.2.failed)).length }

/-- `benchmark_context::wait_results`: join all benchmark threads, which
complete in an arbitrary order, each appending its result under the
mutex. -/
def BenchmarkContext.wait_results (ctx : BenchmarkContext)
    (order : List (String × BenchmarkResult)) : BenchmarkContext :=
  { ctx with
    benchmarkResults := ctx.benchmarkResults ++ order
    benchmarkThreads := [] }

/-- `benchmark_context::terminate` with `exit = false`: join, recompute
counts, print the summary, set the terminated flag; no guard against a
repeated call. -/
def BenchmarkContext.terminate (ctx : BenchmarkContext)
    (order : List (String × BenchmarkResult)) : BenchmarkContext :=
  let c := ctx.wait_results order
  { c with log := c.log ++ [benchSummary c], wasTerminated := true }

/-- The `benchmark_context` destructor: terminate only when not already
terminated. -/
def BenchmarkContext.destroy (ctx : BenchmarkContext) : BenchmarkContext :=
  if ctx.wasTerminated then ctx else ctx.terminate ctx.benchmarkThreads

/-- One benchmark registration request: name, run count, input length,
measured per-run runtimes and the quiet flag. -/
structure BSpec where
  name : String
  runs : ℕ
  m : ℕ
  ts : ℕ → ℚ
  quiet : Bool

/-- Register a list of benchmark requests one after the other. -/
def registerAll (ctx : BenchmarkContext) (specs : List BSpec) :
    BenchmarkContext :=
  specs.foldl (fun c s => c.benchmark s.name s.runs s.m s.ts s.quiet) ctx

/-- The Simpson-weighted pointwise-error sum accumulated by
`prec::estimate` over `n` sub-intervals, written in closed form: weight 1
at the two endpoints (the upper sample taken at `k.b` itself) and the
alternating interior coefficients. -/
def qsumErr (f_approx f_exp : ℚ → ℚ) (k : interval) (n : ℕ) : ℚ :=
  ediff f_approx f_exp k.a
    + (∑ i in Finset.Ico 1 n, scoeff i * ediff f_approx f_exp (k.a + i * (|k.b - k.a| / n)))
    + ediff f_approx f_exp k.b

/-- The reference-magnitude sum accumulated by `prec::estimate` in closed
form: absolute value at the two endpoints, but the RAW (signed) reference
value at interior sample points, exactly as the source accumulates it. -/
def qsumAbs (f_exp : ℚ → ℚ) (k : interval) (n : ℕ) : ℚ :=
  |f_exp k.a|
    + (∑ i in Finset.Ico 1 n, scoeff i * f_exp (k.a + i * (|k.b - k.a| / n)))
    + |f_exp k.b|

/-- The sequence of `failed` flags recorded in a context's equation
table. -/
def eqFailedFlags (ctx : PrecContext) : List Bool :=
  ctx.equationResults.map (fun p => p.2.failed)

lemma fdiv_of_ne_zero (x y : ℚ) (hy : y ≠ 0) : fdiv x y = Fv.fin (x / y) := by
  simp [fdiv, hy]

lemma fdiv_eq_nan_iff (x y : ℚ) : fdiv x y = Fv.nan ↔ y = 0 ∧ x = 0 := by
  unfold fdiv
  split_ifs with h1 h2 h3 <;> simp_all

lemma estFold_sum (f_approx f_exp : ℚ → ℚ) (a dx : ℚ) :
    ∀ (m : ℕ) (acc : EstAcc),
      ((List.range' 1 m 1).foldl (estStep f_approx f_exp a dx) acc).sum
        = acc.sum + ∑ i in Finset.Ico 1 (m + 1), scoeff i * ediff f_approx f_exp (a + i * dx)
  | 0, acc => by simp
  | m + 1, acc => by
    rw [List.range'_1_concat, List.foldl_append]
    have h1m : 1 + m = m + 1 := Nat.add_comm 1 m
    simp only [List.foldl_cons, List.foldl_nil, h1m]
    rw [Finset.sum_Ico_succ_top (Nat.succ_le_succ (Nat.zero_le m))]
    simp only [estStep, estFold_sum f_approx f_exp a dx m acc]
    ring

lemma estFold_sum_sqr (f_approx f_exp : ℚ → ℚ) (a dx : ℚ) :
    ∀ (m : ℕ) (acc : EstAcc),
      ((List.range' 1 m 1).foldl (estStep f_approx f_exp a dx) acc).sum_sqr
        = acc.sum_sqr + ∑ i in Finset.Ico 1 (m + 1),
            scoeff i * ediff f_approx f_exp (a + i * dx) * ediff f_approx f_exp (a + i * dx)
  | 0, acc => by simp
  | m + 1, acc => by
    rw [List.range'_1_concat, List.foldl_append]
    have h1m : 1 + m = m + 1 := Nat.add_comm 1 m
    simp only [List.foldl_cons, List.foldl_nil, h1m]
    rw [Finset.sum_Ico_succ_top (Nat.succ_le_succ (Nat.zero_le m))]
    simp only [estStep, estFold_sum_sqr f_approx f_exp a dx m acc]
    ring

lemma estFold_sum_abs (f_approx f_exp : ℚ → ℚ) (a dx : ℚ) :
    ∀ (m : ℕ) (acc : EstAcc),
      ((List.range' 1 m 1).foldl (estStep f_approx f_exp a dx) acc).sum_abs
        = acc.sum_abs + ∑ i in Finset.Ico 1 (m + 1), scoeff i * f_exp (a + i * dx)
  | 0, acc => by simp
  | m + 1, acc => by
    rw [List.range'_1_concat, List.foldl_append]
    have h1m : 1 + m = m + 1 := Nat.add_comm 1 m
    simp only [List.foldl_cons, List.foldl_nil, h1m]
    rw [Finset.sum_Ico_succ_top (Nat.succ_le_succ (Nat.zero_le m))]
    simp only [estStep, estFold_sum_abs f_approx f_exp a dx m acc]
    ring

lemma estFold_max_self (f : ℚ → ℚ) (a dx : ℚ) :
    ∀ (l : List ℕ) (acc : EstAcc), 0 ≤ acc.max →
      ((l.foldl (estStep f f a dx) acc).max = acc.max)
  | [], _, _ => rfl
  | i :: l, acc, h => by
    have hstep : (estStep f f a dx acc i).max = acc.max := by
      simp [estStep, ediff, not_lt.mpr h]
    simp only [List.foldl_cons]
    rw [estFold_max_self f a dx l _ (by rw [hstep]; exact h), hstep]

lemma welford_mean (x : ℕ → ℚ) :
    ∀ k : ℕ, (welford x k).1 = (∑ i in Finset.range (k + 1), x i) / ((k : ℚ) + 1)
  | 0 => by simp [welford]
  | k + 1 => by
    simp only [welford, welford_mean x k, Finset.sum_range_succ]
    have hk1 : ((k : ℚ) + 1) ≠ 0 := by positivity
    have hk2 : ((k : ℚ) + 2) ≠ 0 := by positivity
    push_cast
    field_simp
    ring

lemma welford_two_sq (x : ℕ → ℚ) : (welford x 1).2 = (x 1 - x 0) ^ 2 / 2 := by
  simp only [welford]
  push_cast
  ring

/-- Claim C2, counterexample: estimating a function against itself can
return a NaN relative error — with the zero function on `[0, 1]` the
reference-magnitude sum is zero, so `rel_err` is 0/0, not 0. -/
theorem c2_counterexample :
    (estimateP "f" (fun _ => 0) (fun _ => 0) ⟨0, 1⟩ false 1 2 ⟨0, 0, []⟩).1.rel_err = Fv.nan
    ∧ Fv.nan ≠ Fv.fin 0 := by
  refine ⟨by norm_num [estimateP, estStep, ediff, scoeff, fdiv], fun h => nomatch h⟩

/-- Claim C2 (amended): estimating a function against itself yields zero
max, mean, RMS and relative error, PROVIDED the interval is non-degenerate,
at least one iteration is requested and the accumulated reference sum is
nonzero; when that sum vanishes the relative error is NaN (0/0), as the
counterexample shows. -/
theorem c2_estimate_self_zero (name : String) (f : ℚ → ℚ) (k : interval)
    (q : Bool) (tol : ℚ) (n : ℕ) (s : PrecModuleState)
    (hk : k.a ≠ k.b) (hn : 1 ≤ n) (habs : qsumAbs f k n ≠ 0) :
    (estimateP name f f k q tol n s).1.max_err = 0
    ∧ (estimateP name f f k q tol n s).1.mean_err = Fv.fin 0
    ∧ (estimateP name f f k q tol n s).1.rms_err = Rv.fin 0
    ∧ (estimateP name f f k q tol n s).1.rel_err = Fv.fin 0 := by
  have hmeas : |k.b - k.a| ≠ 0 := by
    rw [abs_ne_zero, sub_ne_zero]
    exact fun hh => hk hh.symm
  have hnq : ((n : ℚ)) ≠ 0 := by
    exact_mod_cast Nat.one_le_iff_ne_zero.mp hn
  have hdx : |k.b - k.a| / (n : ℚ) ≠ 0 := div_ne_zero hmeas hnq
  have hdz : ∀ x : ℚ, ediff f f x = 0 := fun x => by simp [ediff]
  have hsub : n - 1 + 1 = n := Nat.succ_pred_eq_of_pos hn
  have hsum := estFold_sum f f k.a (|k.b - k.a| / (n : ℚ)) (n - 1)
    { sum := 0, sum_sqr := 0, sum_abs := |f k.a|, max := 0 }
  have hsqr := estFold_sum_sqr f f k.a (|k.b - k.a| / (n : ℚ)) (n - 1)
    { sum := 0, sum_sqr := 0, sum_abs := |f k.a|, max := 0 }
  have habs2 := estFold_sum_abs f f k.a (|k.b - k.a| / (n : ℚ)) (n - 1)
    { sum := 0, sum_sqr := 0, sum_abs := |f k.a|, max := 0 }
  have hmax := estFold_max_self f k.a (|k.b - k.a| / (n : ℚ)) (List.range' 1 (n - 1) 1)
    { sum := 0, sum_sqr := 0, sum_abs := |f k.a|, max := 0 } le_rfl
  rw [hsub] at hsum hsqr habs2
  simp only [hdz, mul_zero, Finset.sum_const_zero, add_zero, zero_add, zero_mul] at hsum hsqr habs2
  have hq : qsumAbs f k n
      = |f k.a| + (∑ i in Finset.Ico 1 n, scoeff i * f (k.a + i * (|k.b - k.a| / n))) + |f k.b| := rfl
  simp only [estimateP, PrecEstimates.rms_err, hdz, mul_zero, zero_mul, add_zero, zero_add]
  rw [hsum, hsqr, habs2, hmax]
  refine ⟨by norm_num, ?_, ?_, ?_⟩
  · rw [show (0 : ℚ) * (|k.b - k.a| / (n : ℚ)) / 3 = 0 by ring, fdiv_of_ne_zero _ _ hmeas]
    norm_num
  · rw [show (0 : ℚ) * (|k.b - k.a| / (n : ℚ)) / 3 = 0 by ring, fdiv_of_ne_zero _ _ hmeas]
    norm_num [fsqrt, Real.sqrt_zero]
  · rw [show (0 : ℚ) * (|k.b - k.a| / (n : ℚ)) / 3 = 0 by ring, ← hq]
    have hden : qsumAbs f k n * (|k.b - k.a| / (n : ℚ)) / 3 ≠ 0 :=
      div_ne_zero (mul_ne_zero habs hdx) three_ne_zero
    rw [fdiv_of_ne_zero _ _ hden]
    norm_num

/-- Concrete instantiation of `c2_estimate_self_zero`: the identity
function on `[0, 1]` with two iterations. -/
theorem c2_estimate_self_zero_witness :
    (((⟨0, 1⟩ : interval)).a ≠ ((⟨0, 1⟩ : interval)).b ∧ 1 ≤ 2
      ∧ qsumAbs (fun x => x) ⟨0, 1⟩ 2 ≠ 0)
    ∧ ((estimateP "f" (fun x => x) (fun x => x) ⟨0, 1⟩ false 1 2 ⟨0, 0, []⟩).1.max_err = 0
      ∧ (estimateP "f" (fun x => x) (fun x => x) ⟨0, 1⟩ false 1 2 ⟨0, 0, []⟩).1.mean_err = Fv.fin 0
      ∧ (estimateP "f" (fun x => x) (fun x => x) ⟨0, 1⟩ false 1 2 ⟨0, 0, []⟩).1.rms_err = Rv.fin 0
      ∧ (estimateP "f" (fun x => x) (fun x => x) ⟨0, 1⟩ false 1 2 ⟨0, 0, []⟩).1.rel_err = Fv.fin 0) := by
  have hk : ((⟨0, 1⟩ : interval)).a ≠ ((⟨0, 1⟩ : interval)).b := by norm_num
  have habs : qsumAbs (fun x => x) ⟨0, 1⟩ 2 ≠ 0 := by
    norm_num [qsumAbs, scoeff, Finset.sum_Ico_succ_top, Finset.Ico_self, ediff]
  exact ⟨⟨hk, by norm_num, habs⟩,
    c2_estimate_self_zero "f" (fun x => x) ⟨0, 1⟩ false 1 2 ⟨0, 0, []⟩ hk (by norm_num) habs⟩

/-- Claim C3, counterexample: with reference function constantly `-1` on
`[0, 2]` and two iterations, the interior reference term enters the
denominator WITHOUT absolute value, so the returned relative error is `-3`
— not the nonnegative ratio of the claim (which here would be `1`). -/
theorem c3_counterexample :
    (estimateP "f" (fun _ => 0) (fun _ => -1) ⟨0, 2⟩ false 1 2 ⟨0, 0, []⟩).1.rel_err
      = Fv.fin (-3) := by
  norm_num [estimateP, estStep, ediff, scoeff, fdiv]

/-- Claim C3 (amended): the returned relative error is the Simpson-weighted
error sum divided by a weighted reference sum whose interior terms use the
RAW (signed) reference value — absolute value is applied only at the two
endpoints; the quotient is NaN exactly when numerator and denominator are
both zero (a nonzero numerator over a zero denominator gives a signed
infinity instead). -/
theorem c3_rel_err_formula (name : String) (f_approx f_exp : ℚ → ℚ)
    (k : interval) (q : Bool) (tol : ℚ) (n : ℕ) (s : PrecModuleState)
    (hn : 1 ≤ n) :
    (estimateP name f_approx f_exp k q tol n s).1.rel_err
      = fdiv (qsumErr f_approx f_exp k n * (|k.b - k.a| / n) / 3)
          (qsumAbs f_exp k n * (|k.b - k.a| / n) / 3)
    ∧ ((estimateP name f_approx f_exp k q tol n s).1.rel_err = Fv.nan
        ↔ qsumAbs f_exp k n * (|k.b - k.a| / n) / 3 = 0
          ∧ qsumErr f_approx f_exp k n * (|k.b - k.a| / n) / 3 = 0) := by
  have hsub : n - 1 + 1 = n := Nat.succ_pred_eq_of_pos hn
  have hsum := estFold_sum f_approx f_exp k.a (|k.b - k.a| / (n : ℚ)) (n - 1)
    { sum := ediff f_approx f_exp k.a
      sum_sqr := ediff f_approx f_exp k.a * ediff f_approx f_exp k.a
      sum_abs := |f_exp k.a|
      max := ediff f_approx f_exp k.a }
  have habs2 := estFold_sum_abs f_approx f_exp k.a (|k.b - k.a| / (n : ℚ)) (n - 1)
    { sum := ediff f_approx f_exp k.a
      sum_sqr := ediff f_approx f_exp k.a * ediff f_approx f_exp k.a
      sum_abs := |f_exp k.a|
      max := ediff f_approx f_exp k.a }
  rw [hsub] at hsum habs2
  have hfirst : (estimateP name f_approx f_exp k q tol n s).1.rel_err
      = fdiv (qsumErr f_approx f_exp k n * (|k.b - k.a| / n) / 3)
          (qsumAbs f_exp k n * (|k.b - k.a| / n) / 3) := by
    simp only [estimateP]
    rw [hsum, habs2, qsumErr, qsumAbs]
  exact ⟨hfirst, by rw [hfirst]; exact fdiv_eq_nan_iff _ _⟩

/-- Concrete instantiation of `c3_rel_err_formula` at `n = 2`. -/
theorem c3_rel_err_formula_witness :
    1 ≤ 2
    ∧ ((estimateP "f" (fun _ => 0) (fun _ => 1) ⟨0, 2⟩ false 1 2 ⟨0, 0, []⟩).1.rel_err
        = fdiv (qsumErr (fun _ => 0) (fun _ => 1) ⟨0, 2⟩ 2 * (|(2 : ℚ) - 0| / 2) / 3)
            (qsumAbs (fun _ => 1) ⟨0, 2⟩ 2 * (|(2 : ℚ) - 0| / 2) / 3)
      ∧ ((estimateP "f" (fun _ => 0) (fun _ => 1) ⟨0, 2⟩ false 1 2 ⟨0, 0, []⟩).1.rel_err = Fv.nan
          ↔ qsumAbs (fun _ => 1) ⟨0, 2⟩ 2 * (|(2 : ℚ) - 0| / 2) / 3 = 0
            ∧ qsumErr (fun _ => 0) (fun _ => 1) ⟨0, 2⟩ 2 * (|(2 : ℚ) - 0| / 2) / 3 = 0)) :=
  ⟨by norm_num,
    c3_rel_err_formula "f" (fun _ => 0) (fun _ => 1) ⟨0, 2⟩ false 1 2 ⟨0, 0, []⟩ (by norm_num)⟩

/-- Claim C4, counterexample: an odd iteration count is NOT normalised up
by one — with `n = 3` the estimator records three evaluations and produces
a different mean error than with `n = 4` (7/27 versus 1/3 for error
`x^2` on `[0, 1]`). -/
theorem c4_counterexample :
    (estimateP "f" (fun x => x * x) (fun _ => 0) ⟨0, 1⟩ false 1 3 ⟨0, 0, []⟩).1.times_evaluated = 3
    ∧ (estimateP "f" (fun x => x * x) (fun _ => 0) ⟨0, 1⟩ false 1 3 ⟨0, 0, []⟩).1.mean_err
        ≠ (estimateP "f" (fun x => x * x) (fun _ => 0) ⟨0, 1⟩ false 1 4 ⟨0, 0, []⟩).1.mean_err := by
  constructor
  · rfl
  · norm_num [estimateP, estStep, ediff, scoeff, fdiv, List.range', abs_of_nonneg]

/-- Claim C4 (amended): an odd iteration count is used exactly as given —
the recorded evaluation count is the odd `n` itself and the quadrature is
taken over `n` sub-intervals of width `|b - a| / n`, with no adjustment
and no error signalled. -/
theorem c4_odd_iterations (name : String) (f_approx f_exp : ℚ → ℚ)
    (k : interval) (q : Bool) (tol : ℚ) (n : ℕ) (s : PrecModuleState)
    (hodd : Odd n) :
    (estimateP name f_approx f_exp k q tol n s).1.times_evaluated = n
    ∧ (estimateP name f_approx f_exp k q tol n s).1.mean_err
        = fdiv (qsumErr f_approx f_exp k n * (|k.b - k.a| / n) / 3) (|k.b - k.a|) := by
  have hn : 1 ≤ n := by
    rcases hodd with ⟨m, hm⟩
    omega
  have hsub : n - 1 + 1 = n := Nat.succ_pred_eq_of_pos hn
  have hsum := estFold_sum f_approx f_exp k.a (|k.b - k.a| / (n : ℚ)) (n - 1)
    { sum := ediff f_approx f_exp k.a
      sum_sqr := ediff f_approx f_exp k.a * ediff f_approx f_exp k.a
      sum_abs := |f_exp k.a|
      max := ediff f_approx f_exp k.a }
  rw [hsub] at hsum
  constructor
  · rfl
  · simp only [estimateP]
    rw [hsum, qsumErr]

/-- Concrete instantiation of `c4_odd_iterations` at the odd count 3. -/
theorem c4_odd_iterations_witness :
    Odd 3
    ∧ ((estimateP "f" (fun x => x * x) (fun _ => 0) ⟨0, 1⟩ false 1 3 ⟨0, 0, []⟩).1.times_evaluated = 3
      ∧ (estimateP "f" (fun x => x * x) (fun _ => 0) ⟨0, 1⟩ false 1 3 ⟨0, 0, []⟩).1.mean_err
          = fdiv (qsumErr (fun x => x * x) (fun _ => 0) ⟨0, 1⟩ 3 * (|(1 : ℚ) - 0| / 3) / 3)
              (|(1 : ℚ) - 0|)) :=
  ⟨⟨1, by norm_num⟩,
    c4_odd_iterations "f" (fun x => x * x) (fun _ => 0) ⟨0, 1⟩ false 1 3 ⟨0, 0, []⟩ ⟨1, by norm_num⟩⟩

lemma estimateP_snd_estimates (name : String) (f_approx f_exp : ℚ → ℚ)
    (k : interval) (q : Bool) (tol : ℚ) (n : ℕ) (s : PrecModuleState) :
    (estimateP name f_approx f_exp k q tol n s).2.module_estimates
      = s.module_estimates ++ [(estimateP name f_approx f_exp k q tol n s).1] := rfl

lemma estimateMulti_foldl_len (name : String) (f_approx f_exp : ℚ → ℚ)
    (q : Bool) (tol : ℚ) :
    ∀ (ks : List interval) (acc : List PrecEstimates) (s : PrecModuleState),
      ((ks.foldl
          (fun a i =>
            let r := estimateP name f_approx f_exp i q tol 1000 a.2
            (a.1 ++ [r.1], r.2))
          (acc, s)).1.length = acc.length + ks.length
      ∧ (ks.foldl
          (fun a i =>
            let r := estimateP name f_approx f_exp i q tol 1000 a.2
            (a.1 ++ [r.1], r.2))
          (acc, s)).2.module_estimates.length = s.module_estimates.length + ks.length)
  | [], acc, s => by simp
  | i :: ks, acc, s => by
    have ih := estimateMulti_foldl_len name f_approx f_exp q tol ks
      (acc ++ [(estimateP name f_approx f_exp i q tol 1000 s).1])
      (estimateP name f_approx f_exp i q tol 1000 s).2
    simp only [List.foldl_cons] at ih ⊢
    refine ⟨?_, ?_⟩
    · rw [ih.1, List.length_append]
      simp only [List.length_cons, List.length_nil]
      omega
    · rw [ih.2, estimateP_snd_estimates, List.length_append]
      simp only [List.length_cons, List.length_nil]
      omega

/-- Claim C5, evaluation at the failing input: for the single requested
interval `[0, 1]` the multi-interval overload returns a vector of TWO
results (a zero-initialised entry left by `resize`, then the pushed-back
estimate), while exactly one result is registered in the module table. -/
theorem c5_resize_push_back_bug :
    (estimateMultiP "f" (fun x => x) (fun x => x) [⟨0, 1⟩] false 1 ⟨0, 0, []⟩).1.length = 2
    ∧ (estimateMultiP "f" (fun x => x) (fun x => x) [⟨0, 1⟩] false 1 ⟨0, 0, []⟩).2.module_estimates.length = 1 := by
  have h := estimateMulti_foldl_len "f" (fun x => x) (fun x => x) false 1 [⟨0, 1⟩]
    (List.replicate ([⟨0, 1⟩] : List interval).length defaultPrecEstimates) ⟨0, 0, []⟩
  exact ⟨h.1.trans (by simp), h.2.trans (by simp)⟩

/-- Claim C6: the benchmark's online Welford aggregation returns an average
runtime equal to the arithmetic mean of the per-run average times (hence
independent of run order); the standard deviation is NaN for a single run,
and for two runs equals `|x1 - x2| / sqrt 2`. -/
theorem c6_welford_statistics (name : String) (runs m : ℕ) (ts : ℕ → ℚ)
    (q : Bool) (hruns : 1 ≤ runs) (_hm : 1 ≤ m) :
    (benchCompute name runs m ts q).averageRuntime
      = Fv.fin ((∑ i in Finset.range runs, ts i / (m : ℚ)) / (runs : ℚ))
    ∧ (runs = 1 → (benchCompute name runs m ts q).stdevRuntime = Rv.nan)
    ∧ (runs = 2 → (benchCompute name runs m ts q).stdevRuntime
        = Rv.fin (((|ts 0 / (m : ℚ) - ts 1 / (m : ℚ)| : ℚ) : ℝ) / Real.sqrt 2)) := by
  refine ⟨?_, ?_, ?_⟩
  · simp only [benchCompute, welford_mean]
    rw [Nat.sub_add_cancel hruns, Nat.cast_sub hruns]
    have hcast : (runs : ℚ) - (1 : ℕ) + 1 = (runs : ℚ) := by push_cast; ring
    rw [hcast]
  · intro h1
    subst h1
    simp [benchCompute, BenchmarkResult.stdevRuntime, fsqrt]
  · intro h2
    subst h2
    have hsq := welford_two_sq (fun i => ts i / (m : ℚ))
    simp only [benchCompute, BenchmarkResult.stdevRuntime]
    norm_num
    rw [hsq]
    have hnn : (0 : ℚ) ≤ (ts 1 / (m : ℚ) - ts 0 / (m : ℚ)) ^ 2 / 2 := by positivity
    rw [fsqrt, if_neg (not_lt.mpr hnn)]
    congr 1
    push_cast
    rw [Real.sqrt_div (sq_nonneg _) 2, Real.sqrt_sq_eq_abs, abs_sub_comm]

/-- Concrete instantiation of `c6_welford_statistics`: two runs of unit
input length with per-run times 0 and 1. -/
theorem c6_welford_statistics_witness :
    (1 ≤ 2 ∧ 1 ≤ 1)
    ∧ (benchCompute "b" 2 1 (fun i => (i : ℚ)) false).averageRuntime
        = Fv.fin ((∑ i in Finset.range 2, (i : ℚ) / ((1 : ℕ) : ℚ)) / ((2 : ℕ) : ℚ))
    ∧ (benchCompute "b" 2 1 (fun i => (i : ℚ)) false).stdevRuntime
        = Rv.fin (((|(0 : ℚ) / ((1 : ℕ) : ℚ) - (1 : ℚ) / ((1 : ℕ) : ℚ)| : ℚ) : ℝ) / Real.sqrt 2) :=
  ⟨⟨by norm_num, by norm_num⟩,
    (c6_welford_statistics "b" 2 1 (fun i => (i : ℚ)) false (by norm_num) (by norm_num)).1,
    (c6_welford_statistics "b" 2 1 (fun i => (i : ℚ)) false (by norm_num) (by norm_num)).2.2 rfl⟩

lemma mem_foldl_mapInsert :
    ∀ (l acc : List String) (x : String),
      x ∈ l.foldl mapInsert acc ↔ x ∈ acc ∨ x ∈ l
  | [], acc, x => by simp
  | k :: l, acc, x => by
    rw [List.foldl_cons, mem_foldl_mapInsert l (mapInsert acc k) x]
    by_cases hk : k ∈ acc
    · simp only [mapInsert, if_pos hk, List.mem_cons]
      constructor
      · rintro (h | h)
        · exact Or.inl h
        · exact Or.inr (Or.inr h)
      · rintro (h | h | h)
        · exact Or.inl h
        · exact Or.inl (h ▸ hk)
        · exact Or.inr h
    · simp only [mapInsert, if_neg hk, List.mem_append, List.mem_singleton, List.mem_cons]
      tauto

lemma mem_pickedOf (args : List String) (x : String) :
    x ∈ pickedOf args ↔ x ∈ args.drop 1 := by
  rw [pickedOf, mem_foldl_mapInsert]
  simp

lemma pickedOf_eq_nil (args : List String) :
    pickedOf args = [] ↔ args.drop 1 = [] := by
  cases hd : args.drop 1 with
  | nil => simp [pickedOf, hd]
  | cons k t =>
    refine iff_of_false ?_ (by simp)
    intro h
    have hk : k ∈ pickedOf args := (mem_pickedOf args k).mpr (by rw [hd]; exact List.mem_cons_self k t)
    rw [h] at hk
    exact absurd hk (List.not_mem_nil k)

/-- Claim C1, counterexample: a context set up with the single token list
`["A"]` picks NOTHING (the source starts reading at index 1, treating the
first token as the program name), so a registration named "B" — a name not
among the supplied tokens — is still executed and inserts a result. -/
theorem c1_counterexample :
    ((PrecContext.setup "m" ["A"]).equals "B" (Fv.fin 0) (Fv.fin 0) (Fv.fin 1) false).equationResults.length
      = 1 := by
  simp [PrecContext.setup, PrecContext.equals, pickedOf, mapInsert]

/-- Claim C1 (amended): only the tokens AFTER the first are treated as
picked names; an estimate or equals registration changes the context (and
eventually contributes a result) exactly when no name is picked or its
name is among the picked ones; benchmark registrations are never filtered
by the picked set and always enqueue one worker. -/
theorem c1_picked_filtering (args : List String) (mn name : String)
    (funcApprox funcExpected : ℚ → ℚ) (opt : EstimateOptions)
    (ev ex tol : Fv) (q : Bool) :
    (name ∈ (PrecContext.setup mn args).settings.pickedTests ↔ name ∈ args.drop 1)
    ∧ (((PrecContext.setup mn args).estimate name funcApprox funcExpected opt
          = PrecContext.setup mn args) ↔ (args.drop 1 ≠ [] ∧ name ∉ args.drop 1))
    ∧ (((PrecContext.setup mn args).equals name ev ex tol q
          = PrecContext.setup mn args) ↔ (args.drop 1 ≠ [] ∧ name ∉ args.drop 1))
    ∧ (∀ (bctx : BenchmarkContext) (runs m : ℕ) (ts : ℕ → ℚ),
        (bctx.benchmark name runs m ts q).benchmarkThreads.length
          = bctx.benchmarkThreads.length + 1) := by
  have hpk : (PrecContext.setup mn args).settings.pickedTests = pickedOf args := rfl
  have hiff : (pickedOf args ≠ [] ∧ name ∉ pickedOf args)
      ↔ (args.drop 1 ≠ [] ∧ name ∉ args.drop 1) := by
    rw [ne_eq, pickedOf_eq_nil, mem_pickedOf]
  refine ⟨by rw [hpk, mem_pickedOf], ?_, ?_, ?_⟩
  · rw [← hiff]
    by_cases hc : pickedOf args ≠ [] ∧ name ∉ pickedOf args
    · refine iff_of_true ?_ hc
      simp only [PrecContext.estimate, hpk, if_pos hc]
    · refine iff_of_false ?_ hc
      intro h
      simp only [PrecContext.estimate, hpk, if_neg hc] at h
      have := congrArg (fun c => c.estimateThreads.length) h
      simp at this
  · rw [← hiff]
    by_cases hc : pickedOf args ≠ [] ∧ name ∉ pickedOf args
    · refine iff_of_true ?_ hc
      simp only [PrecContext.equals, hpk, if_pos hc]
    · refine iff_of_false ?_ hc
      intro h
      simp only [PrecContext.equals, hpk, if_neg hc] at h
      have := congrArg (fun c => c.equationResults.length) h
      simp at this
  · intro bctx runs m ts
    simp [BenchmarkContext.benchmark]

/-- Claim C7, counterexample: calling `terminate` twice on a context
holding one result prints the summary twice — the log then has two
entries, so an explicit second finalize is NOT a no-op. -/
theorem c7_counterexample :
    ((((PrecContext.setup "m" []).equals "x" (Fv.fin 0) (Fv.fin 0) (Fv.fin 1) false).terminate
        []).terminate []).log.length = 2 := by
  simp [PrecContext.setup, PrecContext.equals, PrecContext.terminate,
    PrecContext.wait_results, pickedOf, precSummary]

/-- Claim C7 (amended): an explicit second `terminate` call re-runs
finalization and re-prints a summary — but the summary it recomputes is
identical to the first one (the scan never double-counts, results being
unchanged), and the destructor path IS guarded: destroying an
already-terminated context changes nothing; the same holds for benchmark
contexts. -/
theorem c7_terminate_behaviour (pc : PrecContext) (bc : BenchmarkContext)
    (ord1 : List (String × EstimateResult)) (ord2 : List (String × BenchmarkResult)) :
    ((pc.terminate ord1).terminate []).log
        = (pc.terminate ord1).log ++ [precSummary (pc.terminate ord1)]
    ∧ precSummary (pc.terminate ord1) = precSummary (pc.wait_results ord1)
    ∧ (pc.terminate ord1).destroy = pc.terminate ord1
    ∧ ((bc.terminate ord2).terminate []).log
        = (bc.terminate ord2).log ++ [benchSummary (bc.terminate ord2)]
    ∧ benchSummary (bc.terminate ord2) = benchSummary (bc.wait_results ord2)
    ∧ (bc.terminate ord2).destroy = bc.terminate ord2 := by
  refine ⟨?_, rfl, ?_, ?_, rfl, ?_⟩
  · simp [PrecContext.terminate, PrecContext.wait_results, precSummary]
  · simp [PrecContext.destroy, PrecContext.terminate, PrecContext.wait_results]
  · simp [BenchmarkContext.terminate, BenchmarkContext.wait_results, benchSummary]
  · simp [BenchmarkContext.destroy, BenchmarkContext.terminate, BenchmarkContext.wait_results]

lemma fgt_nan_left (y : Fv) : fgt Fv.nan y = false := by
  cases y <;> rfl

lemma fv_fin_eq_nan_iff (x : ℚ) : Fv.fin x = Fv.nan ↔ False :=
  iff_of_false (fun h => nomatch h) id

/-- Claim C8, counterexample: at tolerance `t = 0` the call
`equals(name, v, v + 2t, t)` compares a zero difference against a zero
tolerance with a STRICT inequality, so it records a PASSING result,
contradicting the claim that it fails for every tolerance. -/
theorem c8_counterexample :
    eqFailedFlags
        ((PrecContext.setup "m" []).equals "x" (Fv.fin 1) (Fv.fin (1 + 2 * 0)) (Fv.fin 0) false)
      = [false] := by
  simp [PrecContext.setup, PrecContext.equals, eqFailedFlags, pickedOf, fabs, fsub, fgt,
    fv_fin_eq_nan_iff, lt_irrefl]

/-- Claim C8 (amended): `equals(name, v, v, t)` records a pass for every
tolerance `t ≥ 0`, and `equals(name, v, v + 2t, t)` records a failure for
every NONZERO tolerance `t` (at `t = 0` it passes, as the counterexample
shows, since the comparison is strict). -/
theorem c8_equals_tolerance (mn name : String) (v t : ℚ) (q : Bool) :
    (0 ≤ t →
      eqFailedFlags ((PrecContext.setup mn []).equals name (Fv.fin v) (Fv.fin v) (Fv.fin t) q)
        = [false])
    ∧ (t ≠ 0 →
      eqFailedFlags
          ((PrecContext.setup mn []).equals name (Fv.fin v) (Fv.fin (v + 2 * t)) (Fv.fin t) q)
        = [true]) := by
  constructor
  · intro ht
    simp [PrecContext.setup, PrecContext.equals, eqFailedFlags, pickedOf, fabs, fsub, fgt,
      not_lt.mpr ht]
  · intro ht
    have h2 : t < |2 * t| := by
      rcases lt_or_gt_of_ne ht with h | h
      · exact lt_of_lt_of_le h (abs_nonneg _)
      · rw [abs_of_pos (by linarith)]
        linarith
    have h2' : t < |v + 2 * t - v| := by
      have hv : v + 2 * t - v = 2 * t := by ring
      rw [hv]
      exact h2
    simp [PrecContext.setup, PrecContext.equals, eqFailedFlags, pickedOf, fabs, fsub, fgt,
      fv_fin_eq_nan_iff, h2, h2']

/-- Concrete instantiation of `c8_equals_tolerance` at `v = 1`, `t = 1`. -/
theorem c8_equals_tolerance_witness :
    ((0 : ℚ) ≤ 1 ∧ (1 : ℚ) ≠ 0)
    ∧ eqFailedFlags ((PrecContext.setup "m" []).equals "x" (Fv.fin 1) (Fv.fin 1) (Fv.fin 1) false)
        = [false]
    ∧ eqFailedFlags
          ((PrecContext.setup "m" []).equals "x" (Fv.fin 1) (Fv.fin (1 + 2 * 1)) (Fv.fin 1) false)
        = [true] :=
  ⟨⟨by norm_num, by norm_num⟩,
    (c8_equals_tolerance "m" "x" 1 1 false).1 (by norm_num),
    (c8_equals_tolerance "m" "x" 1 1 false).2 (by norm_num)⟩

/-- Claim C10: when the computed distance between the evaluated and the
expected value is NaN, the strict comparison against the tolerance is
false, so the recorded result has `failed = false` — a NaN difference is
treated as a pass. -/
theorem c10_nan_diff_passes (ctx : PrecContext) (name : String)
    (ev ex tol : Fv) (q : Bool)
    (hpk : ctx.settings.pickedTests = [])
    (hnan : fabs (fsub ex ev) = Fv.nan) :
    eqFailedFlags (ctx.equals name ev ex tol q) = eqFailedFlags ctx ++ [false] := by
  simp [PrecContext.equals, hpk, eqFailedFlags, hnan, fgt_nan_left]

/-- Concrete instantiation of `c10_nan_diff_passes`: a NaN evaluated value
against expected 0. -/
theorem c10_nan_diff_passes_witness :
    ((PrecContext.setup "m" []).settings.pickedTests = []
      ∧ fabs (fsub (Fv.fin 0) Fv.nan) = Fv.nan)
    ∧ eqFailedFlags ((PrecContext.setup "m" []).equals "x" Fv.nan (Fv.fin 0) (Fv.fin 1) false)
        = eqFailedFlags (PrecContext.setup "m" []) ++ [false] :=
  ⟨⟨rfl, rfl⟩, c10_nan_diff_passes (PrecContext.setup "m" []) "x" Fv.nan (Fv.fin 0) (Fv.fin 1)
    false rfl rfl⟩

lemma registerAll_state (specs : List BSpec) :
    ∀ (ctx : BenchmarkContext),
      (registerAll ctx specs).benchmarkThreads
          = ctx.benchmarkThreads ++ specs.map (fun s =>
              (s.name, benchCompute s.name
                (if s.runs = 0 then ctx.settings.defaultRuns else s.runs) s.m s.ts s.quiet))
        ∧ (registerAll ctx specs).settings = ctx.settings
        ∧ (registerAll ctx specs).benchmarkResults = ctx.benchmarkResults := by
  induction specs with
  | nil => intro ctx; simp [registerAll]
  | cons s rest ih =>
    intro ctx
    have hstep := ih (ctx.benchmark s.name s.runs s.m s.ts s.quiet)
    simp only [registerAll, List.foldl_cons] at hstep ⊢
    refine ⟨?_, ?_, ?_⟩
    · rw [hstep.1]
      simp [BenchmarkContext.benchmark]
    · rw [hstep.2.1]
      rfl
    · rw [hstep.2.2]
      rfl

/-- Claim C9: registering `N` named benchmarks and then waiting for the
results leaves the aggregation table with exactly `N` entries — the
computed results of the `N` registrations, none duplicated and none
missing — for EVERY completion order of the worker threads. -/
theorem c9_concurrent_aggregation (mn : String) (args : List String)
    (specs : List BSpec) (order : List (String × BenchmarkResult))
    (hperm : order.Perm ((registerAll (BenchmarkContext.setup mn args) specs).benchmarkThreads)) :
    ((registerAll (BenchmarkContext.setup mn args) specs).wait_results order).benchmarkResults.length
        = specs.length
    ∧ ((registerAll (BenchmarkContext.setup mn args) specs).wait_results order).benchmarkResults.Perm
        (specs.map (fun s =>
          (s.name, benchCompute s.name (if s.runs = 0 then 10 else s.runs) s.m s.ts s.quiet)))
    ∧ ((registerAll (BenchmarkContext.setup mn args) specs).wait_results order).benchmarkThreads
        = [] := by
  have hreg := registerAll_state specs (BenchmarkContext.setup mn args)
  have hthreads : (registerAll (BenchmarkContext.setup mn args) specs).benchmarkThreads
      = specs.map (fun s =>
          (s.name, benchCompute s.name (if s.runs = 0 then 10 else s.runs) s.m s.ts s.quiet)) := by
    rw [hreg.1]
    rfl
  have hres : ((registerAll (BenchmarkContext.setup mn args) specs).wait_results order).benchmarkResults
      = order := by
    simp only [BenchmarkContext.wait_results]
    rw [hreg.2.2]
    rfl
  rw [hthreads] at hperm
  refine ⟨?_, ?_, rfl⟩
  · rw [hres, hperm.length_eq, List.length_map]
  · rw [hres]
    exact hperm

/-- Concrete instantiation of `c9_concurrent_aggregation`: one benchmark,
joined in registration order. -/
theorem c9_concurrent_aggregation_witness :
    ((registerAll (BenchmarkContext.setup "m" []) [⟨"a", 1, 1, fun _ => 0, false⟩]).benchmarkThreads).Perm
        ((registerAll (BenchmarkContext.setup "m" []) [⟨"a", 1, 1, fun _ => 0, false⟩]).benchmarkThreads)
    ∧ (((registerAll (BenchmarkContext.setup "m" []) [⟨"a", 1, 1, fun _ => 0, false⟩]).wait_results
          ((registerAll (BenchmarkContext.setup "m" []) [⟨"a", 1, 1, fun _ => 0, false⟩]).benchmarkThreads)).benchmarkResults.length
        = 1
      ∧ (((registerAll (BenchmarkContext.setup "m" []) [⟨"a", 1, 1, fun _ => 0, false⟩]).wait_results
          ((registerAll (BenchmarkContext.setup "m" []) [⟨"a", 1, 1, fun _ => 0, false⟩]).benchmarkThreads)).benchmarkResults).Perm
          (([⟨"a", 1, 1, fun _ => 0, false⟩] : List BSpec).map (fun s =>
            (s.name, benchCompute s.name (if s.runs = 0 then 10 else s.runs) s.m s.ts s.quiet)))
      ∧ ((registerAll (BenchmarkContext.setup "m" []) [⟨"a", 1, 1, fun _ => 0, false⟩]).wait_results
          ((registerAll (BenchmarkContext.setup "m" []) [⟨"a", 1, 1, fun _ => 0, false⟩]).benchmarkThreads)).benchmarkThreads
        = []) :=
  ⟨List.Perm.refl _,
    c9_concurrent_aggregation "m" [] [⟨"a", 1, 1, fun _ => 0, false⟩] _ (List.Perm.refl _)⟩
